import Mathlib

set_option maxRecDepth 8192

/-!
Shallow embedding of the PrivacyRedPacket Solidity contract
(the FHE-enabled revision; its claimPacket/refundExpired bodies agree with
the earlier revision in the same file for every shared check).

Modelling conventions:
- uint256 values are Nat with checked arithmetic mirroring Solidity 0.8
  semantics: overflow/underflow raise Panic code 17 (0x11), division or
  modulo by zero raise Panic code 18 (0x12), out-of-range enum conversion
  raises Panic code 33 (0x21).
- addresses are Nat; 0 is address(0), the nonexistence sentinel for
  packet.creator.
- byte strings (password, inputProof, message) are List Nat.
- keccak256 is modelled by an abstract oracle record (HashOracles): the
  contract only uses it as an (arbitrary, deterministic) hash; no claim
  depends on collision behaviour, and theorems quantify over the oracle.
- an euint32 FHE ciphertext handle is modelled by its underlying uint32
  plaintext; FHE.fromExternal is the identity on that plaintext and
  FHE.eq is plaintext equality. FHE.allowThis / FHE.allow /
  FHE.makePubliclyDecryptable are access-control side effects with no
  ledger state; the ebool comparison result that the contract makes
  decryptable is returned as the Bool component of claimPacketWithFHE.
- reverts are the error side of Except; since a Solidity revert rolls the
  whole transaction back, an erroring operation returns no state and the
  caller keeps the pre-state (this also models a failed _payout: the payout
  is the Nat component of a successful result, delivered by the vault).
-/

/-- Custom errors declared by the contract. -/
inductive SolError where
  | PacketExpired
  | PacketNotExpired
  | PacketDoesNotExist
  | InvalidPassword
  | AlreadyClaimed
  | SoldOut
  | NotCreator
  | NothingToRefund
  deriving DecidableEq, Repr

/-- EVM-level failure: a custom error, a require(_, reason) string revert,
or an arithmetic Panic(code). -/
inductive EvmError where
  | custom : SolError → EvmError
  | reason : String → EvmError
  | panic : Nat → EvmError
  deriving DecidableEq, Repr

/-- Largest uint256 value. -/
def UINT256_MAX : Nat := 2 ^ 256 - 1

/-- Solidity 0.8 checked addition on uint256. -/
def checkedAdd (a b : Nat) : Except EvmError Nat :=
  if a + b ≤ UINT256_MAX then .ok (a + b) else .error (.panic 17)

/-- Solidity 0.8 checked subtraction on uint256. -/
def checkedSub (a b : Nat) : Except EvmError Nat :=
  if b ≤ a then .ok (a - b) else .error (.panic 17)

/-- Solidity 0.8 checked multiplication on uint256. -/
def checkedMul (a b : Nat) : Except EvmError Nat :=
  if a * b ≤ UINT256_MAX then .ok (a * b) else .error (.panic 17)

/-- Solidity modulo: Panic 0x12 on zero modulus. -/
def checkedMod (a b : Nat) : Except EvmError Nat :=
  if b = 0 then .error (.panic 18) else .ok (a % b)

/-- Solidity division: Panic 0x12 on zero divisor. -/
def checkedDiv (a b : Nat) : Except EvmError Nat :=
  if b = 0 then .error (.panic 18) else .ok (a / b)

/-- PacketType enum: Random = 0, Average = 1. -/
inductive PacketType where
  | Random
  | Average
  deriving DecidableEq, Repr

/-- Solidity enum conversion PacketType(uint8): Panic 0x21 when out of range. -/
def PacketType.ofUint8 (n : Nat) : Except EvmError PacketType :=
  if n = 0 then .ok .Random
  else if n = 1 then .ok .Average
  else .error (.panic 33)

/-- The RedPacket storage struct (FHE revision). The claimed mapping is a
total function from addresses, false by default, as in Solidity storage. -/
structure RedPacket where
  creator : Nat
  packetType : PacketType
  token : Nat
  totalAmount : Nat
  remainingAmount : Nat
  totalShares : Nat
  remainingShares : Nat
  expiry : Nat
  encryptedPassword : Nat
  useFHE : Bool
  passwordHash : Nat
  message : List Nat
  refunded : Bool
  claimed : Nat → Bool

/-- Zero-initialized storage slot for an unallocated packet id. -/
def emptyPacket : RedPacket :=
  { creator := 0, packetType := .Random, token := 0, totalAmount := 0,
    remainingAmount := 0, totalShares := 0, remainingShares := 0, expiry := 0,
    encryptedPassword := 0, useFHE := false, passwordHash := 0, message := [],
    refunded := false, claimed := fun _ => false }

/-- Contract-level storage: the id counter, the randomness nonce, and the
packets mapping (total, defaulting to the zero slot). -/
structure ContractState where
  nextPacketId : Nat
  randomNonce : Nat
  packets : Nat → RedPacket

/-- Transaction context of one external call. -/
structure CallEnv where
  sender : Nat
  value : Nat
  timestamp : Nat
  prevrandao : Nat

/-- Abstract keccak256 oracle. keccakBytes models keccak256 of a byte
string (password hashing); keccakMix models the uint256 cast of
keccak256(abi.encodePacked(block.prevrandao, block.timestamp, msg.sender,
remainingAmount, remainingShares, randomNonce)) used as entropy. -/
structure HashOracles where
  keccakBytes : List Nat → Nat
  keccakMix : Nat → Nat → Nat → Nat → Nat → Nat → Nat

/-- MIN_DURATION constant: 1 hours. -/
def MIN_DURATION : Nat := 60 * 60

/-- MAX_DURATION constant: 30 days. -/
def MAX_DURATION : Nat := 30 * 24 * 60 * 60

/-- Hardcoded duration used by both create entry points: 24 hours. -/
def DEFAULT_DURATION : Nat := 24 * 60 * 60

/-- Functional update of the packets mapping. -/
def ContractState.setPacket (st : ContractState) (id : Nat) (p : RedPacket) :
    ContractState :=
  { st with packets := fun i => if i = id then p else st.packets i }

/-- The _randomAmount helper. Returns the drawn amount together with the
incremented randomNonce. Mirrors the source line by line: the last share
takes the whole remainder; otherwise
maxShare = remainingAmount - (remainingShares - 1) * minShare with checked
arithmetic, and the draw is seed % maxShare + minShare. -/
def _randomAmount (O : HashOracles) (env : CallEnv) (packet : RedPacket)
    (randomNonce : Nat) : Except EvmError (Nat × Nat) :=
  if packet.remainingShares = 1 then .ok (packet.remainingAmount, randomNonce)
  else
    match checkedSub packet.remainingShares 1 with
    | .error e => .error e
    | .ok sharesMinusOne =>
      match checkedMul sharesMinusOne 1 with
      | .error e => .error e
      | .ok reserve =>
        match checkedSub packet.remainingAmount reserve with
        | .error e => .error e
        | .ok maxShare =>
          match checkedAdd randomNonce 1 with
          | .error e => .error e
          | .ok nonce2 =>
            let seed := O.keccakMix env.prevrandao env.timestamp env.sender
              packet.remainingAmount packet.remainingShares nonce2
            match checkedMod seed maxShare with
            | .error e => .error e
            | .ok r =>
              match checkedAdd r 1 with
              | .error e => .error e
              | .ok amount => .ok (amount, nonce2)

/-- The _averageAmount helper: the last share takes the whole remainder,
any earlier share takes totalAmount / totalShares (checked division). -/
def _averageAmount (packet : RedPacket) : Except EvmError Nat :=
  if packet.remainingShares = 1 then .ok packet.remainingAmount
  else checkedDiv packet.totalAmount packet.totalShares

/-- Amount dispatch in both claim entry points:
packetType == Random ? _randomAmount(packet) : _averageAmount(packet). -/
def claimAmount (O : HashOracles) (env : CallEnv) (packet : RedPacket)
    (randomNonce : Nat) : Except EvmError (Nat × Nat) :=
  if packet.packetType = PacketType.Random then
    _randomAmount O env packet randomNonce
  else
    match _averageAmount packet with
    | .error e => .error e
    | .ok a => .ok (a, randomNonce)

/-- The createPacket entry point (hash-verification mode). Returns the new
state and the allocated packet id. The msg.value require sits after the
field writes in the source; since a revert rolls everything back only the
error order is observable, which is preserved here. -/
def createPacket (O : HashOracles) (env : CallEnv) (st : ContractState)
    (packetType totalAmount quantity : Nat)
    (password inputProof message : List Nat) :
    Except EvmError (ContractState × Nat) :=
  if quantity = 0 then .error (.custom .SoldOut)
  else if 100 < quantity then .error (.reason ("shares too many"))
  else if totalAmount = 0 then .error (.reason ("amount zero"))
  else if password.length = 0 then .error (.reason ("password required"))
  else if 100 < message.length then .error (.reason ("message too long"))
  else if ¬ (MIN_DURATION ≤ DEFAULT_DURATION ∧ DEFAULT_DURATION ≤ MAX_DURATION)
    then .error (.reason ("invalid duration"))
  else
    match checkedAdd st.nextPacketId 1 with
    | .error e => .error e
    | .ok nextId =>
      match PacketType.ofUint8 packetType with
      | .error e => .error e
      | .ok pt =>
        match checkedAdd env.timestamp DEFAULT_DURATION with
        | .error e => .error e
        | .ok expiryTime =>
          if env.value ≠ totalAmount then .error (.reason ("incorrect eth"))
          else
            let packetId := st.nextPacketId
            let packet : RedPacket :=
              { creator := env.sender, packetType := pt, token := 0,
                totalAmount := totalAmount, remainingAmount := totalAmount,
                totalShares := quantity, remainingShares := quantity,
                expiry := expiryTime, encryptedPassword := 0, useFHE := false,
                passwordHash := O.keccakBytes password, message := message,
                refunded := false, claimed := fun _ => false }
            .ok (({ st with nextPacketId := nextId }).setPacket packetId packet,
              packetId)

/-- The createPacketWithFHE entry point. Differs from createPacket by
taking an external euint32 ciphertext (no password.length require), storing
its plaintext with useFHE = true and passwordHash = 0. -/
def createPacketWithFHE (env : CallEnv) (st : ContractState)
    (packetType totalAmount quantity : Nat) (encryptedPassword : Nat)
    (inputProof message : List Nat) : Except EvmError (ContractState × Nat) :=
  if quantity = 0 then .error (.custom .SoldOut)
  else if 100 < quantity then .error (.reason ("shares too many"))
  else if totalAmount = 0 then .error (.reason ("amount zero"))
  else if 100 < message.length then .error (.reason ("message too long"))
  else if ¬ (MIN_DURATION ≤ DEFAULT_DURATION ∧ DEFAULT_DURATION ≤ MAX_DURATION)
    then .error (.reason ("invalid duration"))
  else
    match checkedAdd st.nextPacketId 1 with
    | .error e => .error e
    | .ok nextId =>
      match PacketType.ofUint8 packetType with
      | .error e => .error e
      | .ok pt =>
        match checkedAdd env.timestamp DEFAULT_DURATION with
        | .error e => .error e
        | .ok expiryTime =>
          if env.value ≠ totalAmount then .error (.reason ("incorrect eth"))
          else
            let packetId := st.nextPacketId
            let packet : RedPacket :=
              { creator := env.sender, packetType := pt, token := 0,
                totalAmount := totalAmount, remainingAmount := totalAmount,
                totalShares := quantity, remainingShares := quantity,
                expiry := expiryTime, encryptedPassword := encryptedPassword,
                useFHE := true, passwordHash := 0, message := message,
                refunded := false, claimed := fun _ => false }
            .ok (({ st with nextPacketId := nextId }).setPacket packetId packet,
              packetId)

/-- The claimPacket entry point (hash-verification mode). Check order as in
the source: existence, expiry, remaining shares, already-claimed, FHE-mode
mismatch (InvalidPassword), hash comparison (InvalidPassword), nonempty
proof require, then amount computation and the state mutation; the paid
amount is the Nat component of the result. -/
def claimPacket (O : HashOracles) (env : CallEnv) (st : ContractState)
    (packetId : Nat) (password inputProof : List Nat) :
    Except EvmError (ContractState × Nat) :=
  let packet := st.packets packetId
  if packet.creator = 0 then .error (.custom .PacketDoesNotExist)
  else if packet.expiry < env.timestamp then .error (.custom .PacketExpired)
  else if packet.remainingShares = 0 then .error (.custom .SoldOut)
  else if packet.claimed env.sender then .error (.custom .AlreadyClaimed)
  else if packet.useFHE then .error (.custom .InvalidPassword)
  else if O.keccakBytes password ≠ packet.passwordHash then
    .error (.custom .InvalidPassword)
  else if inputProof.length = 0 then .error (.reason ("proof required"))
  else
    match claimAmount O env packet st.randomNonce with
    | .error e => .error e
    | .ok (amount, nonce2) =>
      match checkedSub packet.remainingShares 1 with
      | .error e => .error e
      | .ok shares2 =>
        match checkedSub packet.remainingAmount amount with
        | .error e => .error e
        | .ok amt2 =>
          let packet2 :=
            { packet with
              claimed := fun a => if a = env.sender then true else packet.claimed a
              remainingShares := shares2
              remainingAmount := amt2 }
          .ok (({ st with randomNonce := nonce2 }).setPacket packetId packet2,
            amount)

/-- The claimPacketWithFHE entry point. Check order as in the source:
existence, expiry, remaining shares, already-claimed, then InvalidPassword
when the packet is not in FHE mode. The FHE equality of the stored and the
supplied ciphertext is computed and exposed (Bool component) but, exactly
as in the source, never branched on: the amount computation, the state
mutation and the payout proceed regardless of it. -/
def claimPacketWithFHE (O : HashOracles) (env : CallEnv) (st : ContractState)
    (packetId : Nat) (encryptedPassword : Nat) (inputProof : List Nat) :
    Except EvmError (ContractState × Nat × Bool) :=
  let packet := st.packets packetId
  if packet.creator = 0 then .error (.custom .PacketDoesNotExist)
  else if packet.expiry < env.timestamp then .error (.custom .PacketExpired)
  else if packet.remainingShares = 0 then .error (.custom .SoldOut)
  else if packet.claimed env.sender then .error (.custom .AlreadyClaimed)
  else if ¬ packet.useFHE then .error (.custom .InvalidPassword)
  else
    let isEqual := decide (packet.encryptedPassword = encryptedPassword)
    match claimAmount O env packet st.randomNonce with
    | .error e => .error e
    | .ok (amount, nonce2) =>
      match checkedSub packet.remainingShares 1 with
      | .error e => .error e
      | .ok shares2 =>
        match checkedSub packet.remainingAmount amount with
        | .error e => .error e
        | .ok amt2 =>
          let packet2 :=
            { packet with
              claimed := fun a => if a = env.sender then true else packet.claimed a
              remainingShares := shares2
              remainingAmount := amt2 }
          .ok (({ st with randomNonce := nonce2 }).setPacket packetId packet2,
            amount, isEqual)

/-- The refundExpired entry point. Pays the remainder to the creator. -/
def refundExpired (env : CallEnv) (st : ContractState) (packetId : Nat) :
    Except EvmError (ContractState × Nat) :=
  let packet := st.packets packetId
  if packet.creator = 0 then .error (.custom .PacketDoesNotExist)
  else if env.sender ≠ packet.creator then .error (.custom .NotCreator)
  else if env.timestamp ≤ packet.expiry then .error (.custom .PacketNotExpired)
  else if packet.refunded ∨ packet.remainingAmount = 0 then
    .error (.custom .NothingToRefund)
  else
    let amount := packet.remainingAmount
    let packet2 :=
      { packet with
        refunded := true
        remainingAmount := 0
        remainingShares := 0 }
    .ok (st.setPacket packetId packet2, amount)

/-- One mutating operation aimed at a fixed packet id: the trace alphabet of
the ledger after creation. -/
inductive Op where
  | claim (env : CallEnv) (password inputProof : List Nat)
  | claimFHE (env : CallEnv) (encryptedPassword : Nat) (inputProof : List Nat)
  | refund (env : CallEnv)

/-- Claim-kind operations (either entry point), as opposed to refunds. -/
def Op.isClaimOp : Op → Bool
  | .refund _ => false
  | _ => true

/-- Apply one operation to the contract state; the Nat is the amount the
vault pays out. The decryptable Bool of the FHE entry point is dropped. -/
def applyOp (O : HashOracles) (pid : Nat) (st : ContractState) :
    Op → Except EvmError (ContractState × Nat)
  | .claim env pw pf => claimPacket O env st pid pw pf
  | .claimFHE env ep pf =>
    match claimPacketWithFHE O env st pid ep pf with
    | .error e => .error e
    | .ok (st2, a, _) => .ok (st2, a)
  | .refund env => refundExpired env st pid

/-- Run a list of operations in order. A reverting operation leaves the
state unchanged and pays nothing (transaction rollback); the Nat output is
the sum of all amounts paid out by the succeeding operations. -/
def runOps (O : HashOracles) (pid : Nat) :
    ContractState → List Op → ContractState × Nat
  | st, [] => (st, 0)
  | st, op :: ops =>
    match applyOp O pid st op with
    | .ok (st2, a) =>
      let r := runOps O pid st2 ops
      (r.1, a + r.2)
    | .error _ => runOps O pid st ops

/-- Payout projection of a claim or refund result. -/
def payoutOf : Except EvmError (ContractState × Nat) → Option Nat
  | .ok (_, a) => some a
  | .error _ => none

/-- Error projection of a claim or refund result. -/
def errorOf : Except EvmError (ContractState × Nat) → Option EvmError
  | .ok _ => none
  | .error e => some e

/-- State projection of a result, with a fallback for the revert case. -/
def stateOr (d : ContractState) : Except EvmError (ContractState × Nat) →
    ContractState
  | .ok (s, _) => s
  | .error _ => d

/-- Payout-and-comparison projection of an FHE claim result. -/
def resultFHE : Except EvmError (ContractState × Nat × Bool) →
    Option (Nat × Bool)
  | .ok (_, a, b) => some (a, b)
  | .error _ => none

/-- Error projection of an FHE claim result. -/
def errorFHE : Except EvmError (ContractState × Nat × Bool) → Option EvmError
  | .ok _ => none
  | .error e => some e

/-- State projection of an FHE claim result, with a revert fallback. -/
def stateOrFHE (d : ContractState) :
    Except EvmError (ContractState × Nat × Bool) → ContractState
  | .ok (s, _, _) => s
  | .error _ => d

/-- Forget the decryptable comparison Bool of an FHE claim result, keeping
the state transition and the payout. -/
def stripFHEBool : Except EvmError (ContractState × Nat × Bool) →
    Except EvmError (ContractState × Nat)
  | .ok (s, a, _) => .ok (s, a)
  | .error e => .error e

/-- Concrete executable instantiation of the keccak256 oracle, used only to
evaluate theorems on concrete inputs. -/
def exOracle : HashOracles :=
  { keccakBytes := fun l => l.foldl (fun acc b => 31 * acc + b + 1) 7
    keccakMix := fun p t s ra rs n => p + t + s + ra + rs + n }

/-- Fresh deployment state. -/
def st0 : ContractState :=
  { nextPacketId := 0, randomNonce := 0, packets := fun _ => emptyPacket }

/-- Creator call context for concrete scenarios (address 10, deposit 5,
time 100). -/
def envA : CallEnv :=
  { sender := 10, value := 5, timestamp := 100, prevrandao := 9 }

/-- Claimer call context for concrete scenarios (address 21, time 200). -/
def envB : CallEnv :=
  { sender := 21, value := 0, timestamp := 200, prevrandao := 9 }

/-- Late call context, past the 24-hour expiry of a packet created at
time 100. -/
def envLate : CallEnv :=
  { sender := 22, value := 0, timestamp := 86501, prevrandao := 9 }

/-- State after creating packet 0: EqualSplit, totalAmount 5, one share,
password bytes [3]. -/
def stP1 : ContractState :=
  stateOr st0 (createPacket exOracle envA st0 1 5 1 [3] [1] [])

/-- State after address 21 claims the single share of packet 0. -/
def stP2 : ContractState :=
  stateOr stP1 (claimPacket exOracle envB stP1 0 [3] [1])

/-- Creator call context depositing 7 at time 100. -/
def envA7 : CallEnv :=
  { sender := 10, value := 7, timestamp := 100, prevrandao := 9 }

/-- Creator call context depositing 1 at time 100. -/
def envA1 : CallEnv :=
  { sender := 10, value := 1, timestamp := 100, prevrandao := 9 }

/-- Second claimer call context (address 22, time 300). -/
def envC : CallEnv :=
  { sender := 22, value := 0, timestamp := 300, prevrandao := 9 }

/-- Third claimer call context (address 23, time 400). -/
def envD : CallEnv :=
  { sender := 23, value := 0, timestamp := 400, prevrandao := 9 }

/-- Creator call context after expiry (address 10, time 86501). -/
def envRefund : CallEnv :=
  { sender := 10, value := 0, timestamp := 86501, prevrandao := 9 }

/-- State after creating packet 0: EqualSplit, totalAmount 7, 3 shares. -/
def stQ1 : ContractState :=
  stateOr st0 (createPacket exOracle envA7 st0 1 7 3 [3] [1] [])

/-- State after the first claim (address 21) on the 7-by-3 packet. -/
def stQ2 : ContractState :=
  stateOr stQ1 (claimPacket exOracle envB stQ1 0 [3] [1])

/-- State after the second claim (address 22) on the 7-by-3 packet. -/
def stQ3 : ContractState :=
  stateOr stQ2 (claimPacket exOracle envC stQ2 0 [3] [1])

/-- State after creating FHE packet 0 with stored ciphertext plaintext 42,
totalAmount 5, one share. -/
def stF1 : ContractState :=
  stateOr st0 (createPacketWithFHE envA st0 1 5 1 42 [1] [])

/-- State after creating packet 0: EqualSplit, totalAmount 5, 2 shares. -/
def stW1 : ContractState :=
  stateOr st0 (createPacket exOracle envA st0 1 5 2 [3] [1] [])

/-- State after address 21 claims one of the two shares of the 5-by-2
packet. -/
def stW2 : ContractState :=
  stateOr stW1 (claimPacket exOracle envB stW1 0 [3] [1])

/-- State after creating packet 0: RandomSplit, totalAmount 5, 2 shares. -/
def stN1 : ContractState :=
  stateOr st0 (createPacket exOracle envA st0 0 5 2 [3] [1] [])

/-- State after creating packet 0: RandomSplit, totalAmount 1, 3 shares
(underfunded: fewer units than shares). -/
def stU1 : ContractState :=
  stateOr st0 (createPacket exOracle envA1 st0 0 1 3 [3] [1] [])

/-- State after creating packet 0: RandomSplit, totalAmount 1, 2 shares
(underfunded boundary case totalAmount = totalShares - 1). -/
def stV1 : ContractState :=
  stateOr st0 (createPacket exOracle envA1 st0 0 1 2 [3] [1] [])

/-- Reading back the packet just written by setPacket. -/
lemma setPacket_get (st : ContractState) (id : Nat) (p : RedPacket) :
    (st.setPacket id p).packets id = p := by
  simp [ContractState.setPacket]

lemma checkedAdd_ok {a b c : Nat} (h : checkedAdd a b = .ok c) : c = a + b := by
  unfold checkedAdd at h
  split at h
  · cases h; rfl
  · cases h

lemma checkedSub_ok {a b c : Nat} (h : checkedSub a b = .ok c) :
    b ≤ a ∧ c = a - b := by
  unfold checkedSub at h
  split at h
  · cases h; exact ⟨by assumption, rfl⟩
  · cases h

lemma checkedMul_ok {a b c : Nat} (h : checkedMul a b = .ok c) : c = a * b := by
  unfold checkedMul at h
  split at h
  · cases h; rfl
  · cases h

lemma checkedMod_ok {a b c : Nat} (h : checkedMod a b = .ok c) :
    b ≠ 0 ∧ c = a % b := by
  unfold checkedMod at h
  split at h
  · cases h
  · cases h; exact ⟨by assumption, rfl⟩

lemma checkedDiv_ok {a b c : Nat} (h : checkedDiv a b = .ok c) :
    b ≠ 0 ∧ c = a / b := by
  unfold checkedDiv at h
  split at h
  · cases h
  · cases h; exact ⟨by assumption, rfl⟩

/-- Inversion for _averageAmount on success. -/
lemma _averageAmount_ok {p : RedPacket} {a : Nat}
    (h : _averageAmount p = .ok a) :
    (p.remainingShares = 1 → a = p.remainingAmount) ∧
    (p.remainingShares ≠ 1 → a = p.totalAmount / p.totalShares) := by
  unfold _averageAmount at h
  split at h
  · cases h
    exact ⟨fun _ => rfl, fun hn => absurd (by assumption) hn⟩
  · rcases checkedDiv_ok h with ⟨-, rfl⟩
    exact ⟨fun h1 => absurd h1 (by assumption), fun _ => rfl⟩

/-- Inversion for _randomAmount on success: the last share takes the whole
remainder; an earlier draw is at least 1 and leaves at least 1 unit per
remaining future share. -/
lemma _randomAmount_ok {O : HashOracles} {env : CallEnv} {p : RedPacket}
    {n a n2 : Nat} (h : _randomAmount O env p n = .ok (a, n2)) :
    (p.remainingShares = 1 → a = p.remainingAmount) ∧
    (p.remainingShares ≠ 1 →
      1 ≤ a ∧ a + (p.remainingShares - 1) ≤ p.remainingAmount) := by
  unfold _randomAmount at h
  split at h
  · cases h
    exact ⟨fun _ => rfl, fun hn => absurd (by assumption) hn⟩
  · refine ⟨fun h1 => absurd h1 (by assumption), fun _ => ?_⟩
    split at h
    · cases h
    next sharesMinusOne hs1 =>
      split at h
      · cases h
      next reserve hmul =>
        split at h
        · cases h
        next maxShare hs2 =>
          split at h
          · cases h
          next nonce2 hadd1 =>
            simp only [] at h
            split at h
            · cases h
            next r hmod =>
              split at h
              · cases h
              next amount hadd2 =>
                cases h
                rcases checkedSub_ok hs1 with ⟨hle1, h1e⟩
                have hres := checkedMul_ok hmul
                rcases checkedSub_ok hs2 with ⟨hle2, h2e⟩
                rcases checkedMod_ok hmod with ⟨hmax, hre⟩
                have hamt := checkedAdd_ok hadd2
                have hlt : r < maxShare := by
                  rw [hre]
                  exact Nat.mod_lt _ (Nat.pos_of_ne_zero hmax)
                omega

/-- Inversion for the amount dispatch on success. -/
lemma claimAmount_ok {O : HashOracles} {env : CallEnv} {p : RedPacket}
    {n a n2 : Nat} (h : claimAmount O env p n = .ok (a, n2)) :
    (p.remainingShares = 1 → a = p.remainingAmount) ∧
    (p.remainingShares ≠ 1 → p.packetType = PacketType.Average →
      a = p.totalAmount / p.totalShares) ∧
    (p.remainingShares ≠ 1 → p.packetType = PacketType.Random →
      1 ≤ a ∧ a + (p.remainingShares - 1) ≤ p.remainingAmount) := by
  unfold claimAmount at h
  split at h
  next hr =>
    rcases _randomAmount_ok h with ⟨h1, h2⟩
    exact ⟨h1, fun hn ha => absurd hr (by simp [ha]), fun hn _ => h2 hn⟩
  next hr =>
    split at h
    · cases h
    next av hav =>
      cases h
      rcases _averageAmount_ok hav with ⟨h1, h2⟩
      refine ⟨h1, fun hn _ => h2 hn, fun hn hrand => absurd hrand hr⟩

/-- Inversion for claimPacket on success: all checks passed, the paid
amount obeys the policy, and the packet is updated by marking the caller,
decrementing the shares and subtracting the amount. -/
lemma claimPacket_ok {O : HashOracles} {env : CallEnv} {st : ContractState}
    {packetId : Nat} {password inputProof : List Nat} {st2 : ContractState}
    {a : Nat}
    (h : claimPacket O env st packetId password inputProof = .ok (st2, a)) :
    (st.packets packetId).creator ≠ 0 ∧
    ¬ (st.packets packetId).expiry < env.timestamp ∧
    (st.packets packetId).remainingShares ≠ 0 ∧
    (st.packets packetId).claimed env.sender = false ∧
    (st.packets packetId).useFHE = false ∧
    O.keccakBytes password = (st.packets packetId).passwordHash ∧
    inputProof.length ≠ 0 ∧
    a ≤ (st.packets packetId).remainingAmount ∧
    ((st.packets packetId).remainingShares = 1 →
      a = (st.packets packetId).remainingAmount) ∧
    ((st.packets packetId).remainingShares ≠ 1 →
      (st.packets packetId).packetType = PacketType.Average →
      a = (st.packets packetId).totalAmount / (st.packets packetId).totalShares) ∧
    ((st.packets packetId).remainingShares ≠ 1 →
      (st.packets packetId).packetType = PacketType.Random →
      1 ≤ a ∧
      a + ((st.packets packetId).remainingShares - 1) ≤
        (st.packets packetId).remainingAmount) ∧
    st2.packets packetId =
      { st.packets packetId with
        claimed := fun x => if x = env.sender then true
          else (st.packets packetId).claimed x
        remainingShares := (st.packets packetId).remainingShares - 1
        remainingAmount := (st.packets packetId).remainingAmount - a } ∧
    st2.nextPacketId = st.nextPacketId := by
  unfold claimPacket at h
  simp only [] at h
  split at h
  · cases h
  next hc =>
    split at h
    · cases h
    next hexp =>
      split at h
      · cases h
      next hsh =>
        split at h
        · cases h
        next hcl =>
          split at h
          · cases h
          next hfhe =>
            split at h
            · cases h
            next hpw =>
              split at h
              · cases h
              next hpf =>
                split at h
                · cases h
                next pr amount nonce2 hamt =>
                  split at h
                  · cases h
                  next shares2 hsub1 =>
                    split at h
                    · cases h
                    next amt2 hsub2 =>
                      cases h
                      rcases claimAmount_ok hamt with ⟨hA1, hA2, hA3⟩
                      rcases checkedSub_ok hsub1 with ⟨hges, hse⟩
                      rcases checkedSub_ok hsub2 with ⟨hgea, hae⟩
                      refine ⟨hc, hexp, hsh, by simpa using hcl, by simpa using hfhe,
                        by simpa using hpw, by simpa using hpf, hgea, hA1, hA2, hA3,
                        ?_, rfl⟩
                      simp only [ContractState.setPacket]
                      rw [hse, hae]
                      simp

/-- Inversion for claimPacketWithFHE on success: the four lifecycle checks
and the FHE-mode check passed, the paid amount obeys the policy, the packet
is updated as in claimPacket, and the exposed Bool is the encrypted
equality of the stored and the supplied ciphertext; nothing else depends on
that equality. -/
lemma claimPacketWithFHE_ok {O : HashOracles} {env : CallEnv}
    {st : ContractState} {packetId encryptedPassword : Nat}
    {inputProof : List Nat} {st2 : ContractState} {a : Nat} {b : Bool}
    (h : claimPacketWithFHE O env st packetId encryptedPassword inputProof
      = .ok (st2, a, b)) :
    (st.packets packetId).creator ≠ 0 ∧
    ¬ (st.packets packetId).expiry < env.timestamp ∧
    (st.packets packetId).remainingShares ≠ 0 ∧
    (st.packets packetId).claimed env.sender = false ∧
    (st.packets packetId).useFHE = true ∧
    b = decide ((st.packets packetId).encryptedPassword = encryptedPassword) ∧
    a ≤ (st.packets packetId).remainingAmount ∧
    ((st.packets packetId).remainingShares = 1 →
      a = (st.packets packetId).remainingAmount) ∧
    ((st.packets packetId).remainingShares ≠ 1 →
      (st.packets packetId).packetType = PacketType.Average →
      a = (st.packets packetId).totalAmount / (st.packets packetId).totalShares) ∧
    ((st.packets packetId).remainingShares ≠ 1 →
      (st.packets packetId).packetType = PacketType.Random →
      1 ≤ a ∧
      a + ((st.packets packetId).remainingShares - 1) ≤
        (st.packets packetId).remainingAmount) ∧
    st2.packets packetId =
      { st.packets packetId with
        claimed := fun x => if x = env.sender then true
          else (st.packets packetId).claimed x
        remainingShares := (st.packets packetId).remainingShares - 1
        remainingAmount := (st.packets packetId).remainingAmount - a } ∧
    st2.nextPacketId = st.nextPacketId := by
  unfold claimPacketWithFHE at h
  simp only [] at h
  split at h
  · cases h
  next hc =>
    split at h
    · cases h
    next hexp =>
      split at h
      · cases h
      next hsh =>
        split at h
        · cases h
        next hcl =>
          split at h
          · cases h
          next hfhe =>
            split at h
            · cases h
            next pr amount nonce2 hamt =>
              split at h
              · cases h
              next shares2 hsub1 =>
                split at h
                · cases h
                next amt2 hsub2 =>
                  cases h
                  rcases claimAmount_ok hamt with ⟨hA1, hA2, hA3⟩
                  rcases checkedSub_ok hsub1 with ⟨hges, hse⟩
                  rcases checkedSub_ok hsub2 with ⟨hgea, hae⟩
                  refine ⟨hc, hexp, hsh, by simpa using hcl, by simpa using hfhe,
                    rfl, hgea, hA1, hA2, hA3, ?_, rfl⟩
                  simp only [ContractState.setPacket]
                  rw [hse, hae]
                  simp

/-- Inversion for refundExpired on success: the caller is the creator, the
packet is past expiry with an unrefunded positive remainder, the payout is
exactly that remainder, and the packet ends refunded with zero remaining
amount and shares. -/
lemma refundExpired_ok {env : CallEnv} {st : ContractState}
    {packetId : Nat} {st2 : ContractState} {a : Nat}
    (h : refundExpired env st packetId = .ok (st2, a)) :
    (st.packets packetId).creator ≠ 0 ∧
    env.sender = (st.packets packetId).creator ∧
    (st.packets packetId).expiry < env.timestamp ∧
    (st.packets packetId).refunded = false ∧
    (st.packets packetId).remainingAmount ≠ 0 ∧
    a = (st.packets packetId).remainingAmount ∧
    st2.packets packetId =
      { st.packets packetId with
        refunded := true
        remainingAmount := 0
        remainingShares := 0 } ∧
    st2.nextPacketId = st.nextPacketId := by
  unfold refundExpired at h
  simp only [] at h
  split at h
  · cases h
  next hc =>
    split at h
    · cases h
    next hcr =>
      split at h
      · cases h
      next hexp =>
        split at h
        · cases h
        next href =>
          cases h
          push_neg at hcr hexp href
          refine ⟨hc, by simpa using hcr, by omega, ?_, href.2, rfl, ?_, rfl⟩
          · cases hb : (st.packets packetId).refunded
            · rfl
            · exact absurd hb href.1
          · simp [ContractState.setPacket]

/-- Inversion for createPacket on success: the argument checks passed, the
deposit matched, the id counter advanced, and packet pid was allocated in
its initial lifecycle state with a 24-hour expiry. -/
lemma createPacket_ok {O : HashOracles} {env : CallEnv} {st : ContractState}
    {ptype T Q : Nat} {pw pf msg : List Nat} {st2 : ContractState} {pid : Nat}
    (h : createPacket O env st ptype T Q pw pf msg = .ok (st2, pid)) :
    Q ≠ 0 ∧ Q ≤ 100 ∧ T ≠ 0 ∧ pw.length ≠ 0 ∧ msg.length ≤ 100 ∧
    env.value = T ∧ ptype ≤ 1 ∧ pid = st.nextPacketId ∧
    st2.nextPacketId = st.nextPacketId + 1 ∧
    (st2.packets pid).creator = env.sender ∧
    (st2.packets pid).totalAmount = T ∧
    (st2.packets pid).remainingAmount = T ∧
    (st2.packets pid).totalShares = Q ∧
    (st2.packets pid).remainingShares = Q ∧
    (st2.packets pid).expiry = env.timestamp + DEFAULT_DURATION ∧
    (st2.packets pid).useFHE = false ∧
    (st2.packets pid).passwordHash = O.keccakBytes pw ∧
    (st2.packets pid).refunded = false ∧
    (∀ x, (st2.packets pid).claimed x = false) ∧
    (ptype = 0 → (st2.packets pid).packetType = PacketType.Random) ∧
    (ptype = 1 → (st2.packets pid).packetType = PacketType.Average) := by
  unfold createPacket at h
  split at h
  · cases h
  next hq0 =>
    split at h
    · cases h
    next hq100 =>
      split at h
      · cases h
      next hT =>
        split at h
        · cases h
        next hpw =>
          split at h
          · cases h
          next hmsg =>
            split at h
            · cases h
            next hdur =>
              split at h
              · cases h
              next nextId hadd1 =>
                split at h
                · cases h
                next pt hpt =>
                  split at h
                  · cases h
                  next expiryTime hadd2 =>
                    split at h
                    · cases h
                    next hval =>
                      simp only [] at h
                      cases h
                      have hnext := checkedAdd_ok hadd1
                      have hexp := checkedAdd_ok hadd2
                      subst hnext hexp
                      have hpt2 : ptype ≤ 1 ∧
                          (ptype = 0 → pt = PacketType.Random) ∧
                          (ptype = 1 → pt = PacketType.Average) := by
                        unfold PacketType.ofUint8 at hpt
                        by_cases h0 : ptype = 0
                        · rw [if_pos h0] at hpt
                          cases hpt
                          exact ⟨by omega, fun _ => rfl, fun hx => by omega⟩
                        · rw [if_neg h0] at hpt
                          by_cases h1 : ptype = 1
                          · rw [if_pos h1] at hpt
                            cases hpt
                            exact ⟨by omega, fun hx => by omega, fun _ => rfl⟩
                          · rw [if_neg h1] at hpt
                            cases hpt
                      refine ⟨hq0, by omega, hT, hpw, by omega,
                        by simpa using hval, hpt2.1, rfl, rfl,
                        ?_, ?_, ?_, ?_, ?_, ?_, ?_, ?_, ?_, ?_, ?_, ?_⟩ <;>
                        simp only [setPacket_get]
                      · exact fun x => trivial
                      · exact hpt2.2.1
                      · exact hpt2.2.2

/-- Per-operation effects on the target packet: the payout is covered by the
remaining amount, which decreases by exactly the payout; the total amount is
unchanged; and in the resulting state a zero share count forces a zero
remaining amount. -/
lemma applyOp_ok {O : HashOracles} {pid : Nat} {st : ContractState} {op : Op}
    {st2 : ContractState} {a : Nat} (h : applyOp O pid st op = .ok (st2, a)) :
    a ≤ (st.packets pid).remainingAmount ∧
    (st2.packets pid).remainingAmount = (st.packets pid).remainingAmount - a ∧
    (st2.packets pid).totalAmount = (st.packets pid).totalAmount ∧
    ((st2.packets pid).remainingShares = 0 →
      (st2.packets pid).remainingAmount = 0) := by
  cases op with
  | claim env pw pf =>
    simp only [applyOp] at h
    rcases claimPacket_ok h with
      ⟨-, -, hsh, -, -, -, -, hle, hlast, -, -, hupd, -⟩
    have hS : (st2.packets pid).remainingShares
        = (st.packets pid).remainingShares - 1 := by rw [hupd]
    have hR : (st2.packets pid).remainingAmount
        = (st.packets pid).remainingAmount - a := by rw [hupd]
    have hT : (st2.packets pid).totalAmount
        = (st.packets pid).totalAmount := by rw [hupd]
    refine ⟨hle, hR, hT, fun hz => ?_⟩
    rw [hS] at hz
    have h1 : (st.packets pid).remainingShares = 1 := by omega
    have := hlast h1
    omega
  | claimFHE env ep pf =>
    simp only [applyOp] at h
    cases hh : claimPacketWithFHE O env st pid ep pf with
    | error e => rw [hh] at h; cases h
    | ok r =>
      obtain ⟨stx, ax, bx⟩ := r
      rw [hh] at h
      cases h
      rcases claimPacketWithFHE_ok hh with
        ⟨-, -, hsh, -, -, -, hle, hlast, -, -, hupd, -⟩
      have hS : (st2.packets pid).remainingShares
          = (st.packets pid).remainingShares - 1 := by rw [hupd]
      have hR : (st2.packets pid).remainingAmount
          = (st.packets pid).remainingAmount - a := by rw [hupd]
      have hT : (st2.packets pid).totalAmount
          = (st.packets pid).totalAmount := by rw [hupd]
      refine ⟨hle, hR, hT, fun hz => ?_⟩
      rw [hS] at hz
      have h1 : (st.packets pid).remainingShares = 1 := by omega
      have := hlast h1
      omega
  | refund env =>
    simp only [applyOp] at h
    rcases refundExpired_ok h with ⟨-, -, -, -, hne, ha, hupd, -⟩
    have hR : (st2.packets pid).remainingAmount = 0 := by rw [hupd]
    have hT : (st2.packets pid).totalAmount
        = (st.packets pid).totalAmount := by rw [hupd]
    exact ⟨by omega, by omega, hT, fun _ => hR⟩

/-- Fund conservation along any operation sequence: total payout plus the
final remaining amount equals the initial remaining amount. -/
lemma runOps_conservation (O : HashOracles) (pid : Nat) :
    ∀ (ops : List Op) (st : ContractState),
      (runOps O pid st ops).2 +
        ((runOps O pid st ops).1.packets pid).remainingAmount
        = (st.packets pid).remainingAmount
  | [], st => by simp [runOps]
  | op :: ops, st => by
    simp only [runOps]
    cases hh : applyOp O pid st op with
    | error e => exact runOps_conservation O pid ops st
    | ok r =>
      obtain ⟨st2, a⟩ := r
      rcases applyOp_ok hh with ⟨hle, hR, -, -⟩
      have ih := runOps_conservation O pid ops st2
      simp only []
      omega

/-- The total amount recorded in the packet never changes along a run. -/
lemma runOps_total (O : HashOracles) (pid : Nat) :
    ∀ (ops : List Op) (st : ContractState),
      ((runOps O pid st ops).1.packets pid).totalAmount
        = (st.packets pid).totalAmount
  | [], st => by simp [runOps]
  | op :: ops, st => by
    simp only [runOps]
    cases hh : applyOp O pid st op with
    | error e => exact runOps_total O pid ops st
    | ok r =>
      obtain ⟨st2, a⟩ := r
      rcases applyOp_ok hh with ⟨-, -, hT, -⟩
      have ih := runOps_total O pid ops st2
      simp only []
      omega

/-- Exhaustion soundness along a run: if zero shares implies zero amount at
the start, the same holds at the end; in particular a run that drives the
share count to zero leaves no remaining amount. -/
lemma runOps_zero (O : HashOracles) (pid : Nat) :
    ∀ (ops : List Op) (st : ContractState),
      ((st.packets pid).remainingShares = 0 →
        (st.packets pid).remainingAmount = 0) →
      ((runOps O pid st ops).1.packets pid).remainingShares = 0 →
      ((runOps O pid st ops).1.packets pid).remainingAmount = 0
  | [], st => by intro hz; simpa [runOps] using hz
  | op :: ops, st => by
    simp only [runOps]
    intro hz
    cases hh : applyOp O pid st op with
    | error e => exact runOps_zero O pid ops st hz
    | ok r =>
      obtain ⟨st2, a⟩ := r
      rcases applyOp_ok hh with ⟨-, -, -, hz2⟩
      simp only []
      exact runOps_zero O pid ops st2 hz2

/-- C2: after every operation on a packet, totalAmount equals the sum of
all amounts paid out (to claimants, and to the creator on refund) plus
remainingAmount; each successful claim decreases remainingAmount by exactly
the paid amount, and refund pays exactly the pre-refund remainingAmount and
zeroes it. -/
theorem C2_fund_conservation (O : HashOracles) (env : CallEnv)
    (st1 : ContractState) (ptype T Q : Nat) (pw pf msg : List Nat)
    (st2 : ContractState) (pid : Nat)
    (hcreate : createPacket O env st1 ptype T Q pw pf msg = .ok (st2, pid)) :
    (∀ ops : List Op,
      ((runOps O pid st2 ops).1.packets pid).totalAmount = T ∧
      (runOps O pid st2 ops).2 +
        ((runOps O pid st2 ops).1.packets pid).remainingAmount = T) ∧
    (∀ env2 st3 pw2 pf2 st4 a,
      claimPacket O env2 st3 pid pw2 pf2 = .ok (st4, a) →
      a ≤ (st3.packets pid).remainingAmount ∧
      (st4.packets pid).remainingAmount
        = (st3.packets pid).remainingAmount - a) ∧
    (∀ env2 st3 st4 a,
      refundExpired env2 st3 pid = .ok (st4, a) →
      a = (st3.packets pid).remainingAmount ∧
      (st4.packets pid).remainingAmount = 0) := by
  rcases createPacket_ok hcreate with
    ⟨-, -, -, -, -, -, -, -, -, -, htot, hrem, -⟩
  refine ⟨fun ops => ?_, fun env2 st3 pw2 pf2 st4 a h => ?_,
    fun env2 st3 st4 a h => ?_⟩
  · have hc := runOps_conservation O pid ops st2
    have ht := runOps_total O pid ops st2
    rw [hrem] at hc
    rw [htot] at ht
    exact ⟨ht, hc⟩
  · rcases claimPacket_ok h with ⟨-, -, -, -, -, -, -, hle, -, -, -, hupd, -⟩
    exact ⟨hle, by rw [hupd]⟩
  · rcases refundExpired_ok h with ⟨-, -, -, -, -, ha, hupd, -⟩
    exact ⟨ha, by rw [hupd]⟩

/-- Witness for C2: the 7-by-3 EqualSplit packet, after two claims paying
2 each, satisfies paid + remaining = 7. -/
theorem C2_fund_conservation_witness :
    (createPacket exOracle envA7 st0 1 7 3 [3] [1] []).isOk = true ∧
    (runOps exOracle 0 stQ1 [.claim envB [3] [1], .claim envC [3] [1]]).2 +
      ((runOps exOracle 0 stQ1
        [.claim envB [3] [1], .claim envC [3] [1]]).1.packets
          0).remainingAmount = 7 := by
  have h : createPacket exOracle envA7 st0 1 7 3 [3] [1] [] = .ok (stQ1, 0) :=
    rfl
  exact ⟨rfl,
    ((C2_fund_conservation exOracle envA7 st0 1 7 3 [3] [1] [] stQ1 0 h).1
      [.claim envB [3] [1], .claim envC [3] [1]]).2⟩

/-- C9: refundExpired checks existence, creator, expiry and
refundable-remainder in order, each with its own error; on success it pays
exactly the remaining amount, marks the packet refunded and zeroes the
remaining amount and shares, and a second refund by the creator after
expiry fails with NothingToRefund. -/
theorem C9_refund_checks_and_exclusivity (env : CallEnv)
    (st : ContractState) (pid : Nat) :
    ((st.packets pid).creator = 0 →
      refundExpired env st pid = .error (.custom .PacketDoesNotExist)) ∧
    ((st.packets pid).creator ≠ 0 →
      env.sender ≠ (st.packets pid).creator →
      refundExpired env st pid = .error (.custom .NotCreator)) ∧
    ((st.packets pid).creator ≠ 0 →
      env.sender = (st.packets pid).creator →
      env.timestamp ≤ (st.packets pid).expiry →
      refundExpired env st pid = .error (.custom .PacketNotExpired)) ∧
    ((st.packets pid).creator ≠ 0 →
      env.sender = (st.packets pid).creator →
      (st.packets pid).expiry < env.timestamp →
      ((st.packets pid).refunded = true ∨
        (st.packets pid).remainingAmount = 0) →
      refundExpired env st pid = .error (.custom .NothingToRefund)) ∧
    (∀ st2 a, refundExpired env st pid = .ok (st2, a) →
      a = (st.packets pid).remainingAmount ∧
      (st2.packets pid).refunded = true ∧
      (st2.packets pid).remainingAmount = 0 ∧
      (st2.packets pid).remainingShares = 0 ∧
      ∀ env2, env2.sender = (st2.packets pid).creator →
        (st2.packets pid).expiry < env2.timestamp →
        refundExpired env2 st2 pid = .error (.custom .NothingToRefund)) := by
  refine ⟨fun h1 => ?_, fun h1 h2 => ?_, fun h1 h2 h3 => ?_,
    fun h1 h2 h3 h4 => ?_, fun st2 a h => ?_⟩
  · simp [refundExpired, h1]
  · simp [refundExpired, h1, h2]
  · simp [refundExpired, h1, h2, h3]
  · rcases h4 with h4 | h4
    · simp [refundExpired, h1, h2, h3, h4, Nat.not_le.mpr h3]
    · simp [refundExpired, h1, h2, h3, h4, Nat.not_le.mpr h3]
  · rcases refundExpired_ok h with ⟨hc, hcr, hexp, -, -, ha, hupd, -⟩
    have href : (st2.packets pid).refunded = true := by rw [hupd]
    have hrem : (st2.packets pid).remainingAmount = 0 := by rw [hupd]
    have hsh : (st2.packets pid).remainingShares = 0 := by rw [hupd]
    have hcr2 : (st2.packets pid).creator = (st.packets pid).creator := by
      rw [hupd]
    refine ⟨ha, href, hrem, hsh, fun env2 h2s h2t => ?_⟩
    simp [refundExpired, hcr2, hc, h2s, href, Nat.not_le.mpr h2t]

/-- Witness for C9: refunding the 5-by-1 packet before expiry fails with
PacketNotExpired; after expiry it succeeds paying the full remainder 5,
marks the packet refunded with zero remainder and shares, and a second
refund attempt fails with NothingToRefund. -/
theorem C9_refund_checks_witness :
    refundExpired envA stP1 0 = .error (.custom .PacketNotExpired) ∧
    (refundExpired envRefund stP1 0).isOk = true ∧
    (5 = (stP1.packets 0).remainingAmount ∧
      ((stateOr stP1 (refundExpired envRefund stP1 0)).packets 0).refunded
        = true ∧
      ((stateOr stP1 (refundExpired envRefund stP1 0)).packets
        0).remainingAmount = 0 ∧
      ((stateOr stP1 (refundExpired envRefund stP1 0)).packets
        0).remainingShares = 0) ∧
    refundExpired envRefund (stateOr stP1 (refundExpired envRefund stP1 0)) 0
      = .error (.custom .NothingToRefund) := by
  have h : refundExpired envRefund stP1 0
      = .ok (stateOr stP1 (refundExpired envRefund stP1 0), 5) := rfl
  have hmain := (C9_refund_checks_and_exclusivity envRefund stP1 0).2.2.2.2
    (stateOr stP1 (refundExpired envRefund stP1 0)) 5 h
  refine ⟨(C9_refund_checks_and_exclusivity envA stP1 0).2.2.1
      (by decide) (by decide) (by decide),
    rfl, ⟨hmain.1, hmain.2.1, hmain.2.2.1, hmain.2.2.2.1⟩,
    hmain.2.2.2.2 envRefund (by decide) (by decide)⟩

/-- C5: on an EqualSplit packet every successful claim while more than one
share remains pays exactly floor(totalAmount / totalShares), the claim on
the last share pays exactly the current remainingAmount leaving zero, and
any sequence of claim operations that exhausts the shares pays out exactly
totalAmount in total with zero remainder. -/
theorem C5_equal_split_amounts (O : HashOracles) (env : CallEnv)
    (st1 : ContractState) (T Q : Nat) (pw pf msg : List Nat)
    (st2 : ContractState) (pid : Nat)
    (hcreate : createPacket O env st1 1 T Q pw pf msg = .ok (st2, pid)) :
    (∀ env2 st3 pw2 pf2 st4 a,
      (st3.packets pid).packetType = PacketType.Average →
      claimPacket O env2 st3 pid pw2 pf2 = .ok (st4, a) →
      (1 < (st3.packets pid).remainingShares →
        a = (st3.packets pid).totalAmount / (st3.packets pid).totalShares) ∧
      ((st3.packets pid).remainingShares = 1 →
        a = (st3.packets pid).remainingAmount ∧
        (st4.packets pid).remainingAmount = 0)) ∧
    (∀ ops : List Op, (∀ op ∈ ops, op.isClaimOp = true) →
      ((runOps O pid st2 ops).1.packets pid).remainingShares = 0 →
      (runOps O pid st2 ops).2 = T ∧
      ((runOps O pid st2 ops).1.packets pid).remainingAmount = 0) := by
  rcases createPacket_ok hcreate with
    ⟨hQ0, -, -, -, -, -, -, -, -, -, -, hrem, -, hshares, -⟩
  refine ⟨fun env2 st3 pw2 pf2 st4 a hav h => ?_, fun ops hclaims hfin => ?_⟩
  · rcases claimPacket_ok h with
      ⟨-, -, -, -, -, -, -, -, hlast, havg, -, hupd, -⟩
    refine ⟨fun hgt => havg (by omega) hav, fun h1 => ?_⟩
    have ha := hlast h1
    refine ⟨ha, ?_⟩
    rw [hupd]
    show (st3.packets pid).remainingAmount - a = 0
    omega
  · have hz : (st2.packets pid).remainingShares = 0 →
        (st2.packets pid).remainingAmount = 0 := by
      rw [hshares]; exact fun h => absurd h hQ0
    have hzero := runOps_zero O pid ops st2 hz hfin
    have hcons := runOps_conservation O pid ops st2
    rw [hrem, hzero] at hcons
    exact ⟨by omega, hzero⟩

/-- Witness for C5: the totalAmount 7, totalShares 3 EqualSplit scenario:
the three claims pay 2, 2 and 3, and exhausting the packet pays out 7 in
total with zero remainder. -/
theorem C5_equal_split_witness :
    payoutOf (claimPacket exOracle envB stQ1 0 [3] [1]) = some 2 ∧
    payoutOf (claimPacket exOracle envC stQ2 0 [3] [1]) = some 2 ∧
    payoutOf (claimPacket exOracle envD stQ3 0 [3] [1]) = some 3 ∧
    (runOps exOracle 0 stQ1
      [.claim envB [3] [1], .claim envC [3] [1], .claim envD [3] [1]]).2 = 7 ∧
    ((runOps exOracle 0 stQ1
      [.claim envB [3] [1], .claim envC [3] [1],
        .claim envD [3] [1]]).1.packets 0).remainingAmount = 0 := by
  have h : createPacket exOracle envA7 st0 1 7 3 [3] [1] [] = .ok (stQ1, 0) :=
    rfl
  have hrun := (C5_equal_split_amounts exOracle envA7 st0 7 3 [3] [1] []
    stQ1 0 h).2
    [.claim envB [3] [1], .claim envC [3] [1], .claim envD [3] [1]]
    (by decide) (by decide)
  exact ⟨rfl, rfl, rfl, hrun.1, hrun.2⟩

/-- C6: on a RandomSplit packet every successful claim while more than one
share remains pays an amount in the closed interval
[1, remainingAmount - (remainingShares - 1)], the claim on the last share
pays exactly the current remainingAmount leaving zero, and any operation
sequence that drives the shares to zero leaves zero remainingAmount, for
every entropy oracle. -/
theorem C6_random_split_bounds (O : HashOracles) (env : CallEnv)
    (st1 : ContractState) (T Q : Nat) (pw pf msg : List Nat)
    (st2 : ContractState) (pid : Nat)
    (hcreate : createPacket O env st1 0 T Q pw pf msg = .ok (st2, pid)) :
    (∀ env2 st3 pw2 pf2 st4 a,
      (st3.packets pid).packetType = PacketType.Random →
      claimPacket O env2 st3 pid pw2 pf2 = .ok (st4, a) →
      (1 < (st3.packets pid).remainingShares →
        1 ≤ a ∧
        a ≤ (st3.packets pid).remainingAmount -
          ((st3.packets pid).remainingShares - 1)) ∧
      ((st3.packets pid).remainingShares = 1 →
        a = (st3.packets pid).remainingAmount ∧
        (st4.packets pid).remainingAmount = 0)) ∧
    (∀ ops : List Op,
      ((runOps O pid st2 ops).1.packets pid).remainingShares = 0 →
      ((runOps O pid st2 ops).1.packets pid).remainingAmount = 0) := by
  rcases createPacket_ok hcreate with
    ⟨hQ0, -, -, -, -, -, -, -, -, -, -, -, -, hshares, -⟩
  refine ⟨fun env2 st3 pw2 pf2 st4 a hrand h => ?_, fun ops hfin => ?_⟩
  · rcases claimPacket_ok h with
      ⟨-, -, -, -, -, -, -, -, hlast, -, hrnd, hupd, -⟩
    refine ⟨fun hgt => ?_, fun h1 => ?_⟩
    · have := hrnd (by omega) hrand
      omega
    · have ha := hlast h1
      refine ⟨ha, ?_⟩
      rw [hupd]
      show (st3.packets pid).remainingAmount - a = 0
      omega
  · have hz : (st2.packets pid).remainingShares = 0 →
        (st2.packets pid).remainingAmount = 0 := by
      rw [hshares]; exact fun h => absurd h hQ0
    exact runOps_zero O pid ops st2 hz hfin

/-- Witness for C6: a RandomSplit packet with totalAmount 5 and 2 shares
under the concrete entropy oracle: the first claim draws 3, inside
[1, 5 - 1]; the second claim takes the remaining 2, and the exhausted
packet holds remainder 0. -/
theorem C6_random_split_witness :
    payoutOf (claimPacket exOracle envB stN1 0 [3] [1]) = some 3 ∧
    (1 ≤ 3 ∧ 3 ≤ (stN1.packets 0).remainingAmount -
      ((stN1.packets 0).remainingShares - 1)) ∧
    ((runOps exOracle 0 stN1
      [.claim envB [3] [1], .claim envC [3] [1]]).1.packets
        0).remainingAmount = 0 := by
  have h : createPacket exOracle envA st0 0 5 2 [3] [1] [] = .ok (stN1, 0) :=
    rfl
  have hmain := C6_random_split_bounds exOracle envA st0 5 2 [3] [1] []
    stN1 0 h
  have hclaim : claimPacket exOracle envB stN1 0 [3] [1]
      = .ok (stateOr stN1 (claimPacket exOracle envB stN1 0 [3] [1]), 3) :=
    rfl
  have hbounds := (hmain.1 envB stN1 [3] [1]
    (stateOr stN1 (claimPacket exOracle envB stN1 0 [3] [1])) 3
    (by decide) hclaim).1 (by decide)
  exact ⟨rfl, hbounds, hmain.2
    [.claim envB [3] [1], .claim envC [3] [1]] (by decide)⟩

/-- C1 (amended): in hash mode a claim pays out only when the hash of the
supplied password equals the stored commitment, and a wrong secret or a
mode mismatch yields InvalidPassword; the FHE entry point, however, only
verifies the mode tag: its state transition and payout are identical for
every supplied ciphertext, so the encrypted comparison (exposed for
off-chain decryption) never gates the payout. -/
theorem C1_secret_gating_amended (O : HashOracles) (env : CallEnv)
    (st : ContractState) (pid : Nat) (pw pf : List Nat) :
    (∀ st2 a, claimPacket O env st pid pw pf = .ok (st2, a) →
      (st.packets pid).useFHE = false ∧
      O.keccakBytes pw = (st.packets pid).passwordHash) ∧
    ((st.packets pid).creator ≠ 0 →
      ¬ (st.packets pid).expiry < env.timestamp →
      (st.packets pid).remainingShares ≠ 0 →
      (st.packets pid).claimed env.sender = false →
      ((st.packets pid).useFHE = true ∨
        O.keccakBytes pw ≠ (st.packets pid).passwordHash) →
      claimPacket O env st pid pw pf = .error (.custom .InvalidPassword)) ∧
    (∀ e1 e2 : Nat,
      stripFHEBool (claimPacketWithFHE O env st pid e1 pf)
        = stripFHEBool (claimPacketWithFHE O env st pid e2 pf)) := by
  refine ⟨fun st2 a h => ?_, fun hc hexp hsh hcl hbad => ?_, fun e1 e2 => ?_⟩
  · rcases claimPacket_ok h with ⟨-, -, -, -, h5, h6, -⟩
    exact ⟨h5, h6⟩
  · have hclF : ¬ (st.packets pid).claimed env.sender = true := by simp [hcl]
    rcases hbad with hf | hne
    · simp [claimPacket, hc, hexp, hsh, hclF, hf]
    · cases hfhe : (st.packets pid).useFHE
      · simp [claimPacket, hc, hexp, hsh, hclF, hfhe, hne]
      · simp [claimPacket, hc, hexp, hsh, hclF, hfhe]
  · by_cases h1 : (st.packets pid).creator = 0
    · simp [claimPacketWithFHE, h1]
    by_cases h2 : (st.packets pid).expiry < env.timestamp
    · simp [claimPacketWithFHE, h1, h2]
    by_cases h3 : (st.packets pid).remainingShares = 0
    · simp [claimPacketWithFHE, h1, h2, h3]
    by_cases h4 : (st.packets pid).claimed env.sender = true
    · simp [claimPacketWithFHE, h1, h2, h3, h4]
    by_cases h5 : (st.packets pid).useFHE = true
    case neg => simp [claimPacketWithFHE, h1, h2, h3, h4, h5]
    case pos =>
      simp only [claimPacketWithFHE, if_neg h1, if_neg h2, if_neg h3,
        if_neg h4]
      cases hA : claimAmount O env (st.packets pid) st.randomNonce with
      | error e => simp [hA, h5]
      | ok pr =>
        obtain ⟨am, n2⟩ := pr
        cases hs1 : checkedSub (st.packets pid).remainingShares 1 with
        | error e => simp [hA, hs1, h5]
        | ok s2 =>
          cases hs2 : checkedSub (st.packets pid).remainingAmount am with
          | error e => simp [hA, hs1, hs2, h5]
          | ok a2 => simp [hA, hs1, hs2, stripFHEBool, h5]

/-- Counterexample for C1 as stated: on the FHE packet whose stored
ciphertext encrypts 42, a claim supplying a ciphertext of 7 is accepted:
the contract records the failed comparison (the exposed Bool is false) yet
still pays out the full 5 and commits the state, instead of failing with
InvalidPassword. -/
theorem C1_fhe_pays_despite_mismatch_counterexample :
    (createPacketWithFHE envA st0 1 5 1 42 [1] []).isOk = true ∧
    (stF1.packets 0).useFHE = true ∧
    (stF1.packets 0).encryptedPassword = 42 ∧
    resultFHE (claimPacketWithFHE exOracle envB stF1 0 7 [1])
      = some (5, false) ∧
    errorFHE (claimPacketWithFHE exOracle envB stF1 0 7 [1]) = none := by
  exact ⟨rfl, rfl, rfl, rfl, rfl⟩

/-- Witness for C1 (amended): a wrong password on a hash-mode packet is
rejected with InvalidPassword, while the FHE entry point produces the same
state transition and payout for a wrong ciphertext (7) as for the right
one (42). -/
theorem C1_secret_gating_witness :
    claimPacket exOracle envB stP1 0 [4] [1]
      = .error (.custom .InvalidPassword) ∧
    stripFHEBool (claimPacketWithFHE exOracle envB stF1 0 7 [1])
      = stripFHEBool (claimPacketWithFHE exOracle envB stF1 0 42 [1]) := by
  refine ⟨(C1_secret_gating_amended exOracle envB stP1 0 [4] [1]).2.1
      (by decide) (by decide) (by decide) (by decide) (Or.inr (by decide)),
    (C1_secret_gating_amended exOracle envB stF1 0 [4] [1]).2.2 7 42⟩

/-- C3 (amended): the claim checks run in the stated order with
short-circuit: nonexistence, then expiry, then exhaustion, then prior
claim, then secret verification (mode tag or hash mismatch), each with its
own error; an expired packet yields PacketExpired regardless of shares,
prior claims or password, while an exhausted packet yields SoldOut only
when it is not also expired (expiry is checked first). -/
theorem C3_claim_check_order_amended (O : HashOracles) (env : CallEnv)
    (st : ContractState) (pid : Nat) (pw pf : List Nat) :
    ((st.packets pid).creator = 0 →
      claimPacket O env st pid pw pf
        = .error (.custom .PacketDoesNotExist)) ∧
    ((st.packets pid).creator ≠ 0 →
      (st.packets pid).expiry < env.timestamp →
      claimPacket O env st pid pw pf = .error (.custom .PacketExpired)) ∧
    ((st.packets pid).creator ≠ 0 →
      ¬ (st.packets pid).expiry < env.timestamp →
      (st.packets pid).remainingShares = 0 →
      claimPacket O env st pid pw pf = .error (.custom .SoldOut)) ∧
    ((st.packets pid).creator ≠ 0 →
      ¬ (st.packets pid).expiry < env.timestamp →
      (st.packets pid).remainingShares ≠ 0 →
      (st.packets pid).claimed env.sender = true →
      claimPacket O env st pid pw pf = .error (.custom .AlreadyClaimed)) ∧
    ((st.packets pid).creator ≠ 0 →
      ¬ (st.packets pid).expiry < env.timestamp →
      (st.packets pid).remainingShares ≠ 0 →
      (st.packets pid).claimed env.sender = false →
      ((st.packets pid).useFHE = true ∨
        O.keccakBytes pw ≠ (st.packets pid).passwordHash) →
      claimPacket O env st pid pw pf
        = .error (.custom .InvalidPassword)) := by
  refine ⟨fun h1 => ?_, fun h1 h2 => ?_, fun h1 h2 h3 => ?_,
    fun h1 h2 h3 h4 => ?_, fun h1 h2 h3 h4 h5 => ?_⟩
  · simp [claimPacket, h1]
  · simp [claimPacket, h1, h2]
  · simp [claimPacket, h1, h2, h3]
  · simp [claimPacket, h1, h2, h3, h4]
  · have hclF : ¬ (st.packets pid).claimed env.sender = true := by simp [h4]
    rcases h5 with hf | hne
    · simp [claimPacket, h1, h2, h3, hclF, hf]
    · cases hfhe : (st.packets pid).useFHE
      · simp [claimPacket, h1, h2, h3, hclF, hfhe, hne]
      · simp [claimPacket, h1, h2, h3, hclF, hfhe]

/-- Counterexample for C3 as stated: a packet that is both exhausted
(remainingShares = 0) and expired fails with PacketExpired, not with
SoldOut, because expiry is checked before the share count; so an exhausted
packet does not fail with SoldOut regardless of expiry. -/
theorem C3_expired_beats_soldout_counterexample :
    (createPacket exOracle envA st0 1 5 1 [3] [1] []).isOk = true ∧
    (claimPacket exOracle envB stP1 0 [3] [1]).isOk = true ∧
    (stP2.packets 0).remainingShares = 0 ∧
    (stP2.packets 0).expiry < envLate.timestamp ∧
    errorOf (claimPacket exOracle envLate stP2 0 [3] [1])
      = some (.custom .PacketExpired) ∧
    EvmError.custom .PacketExpired ≠ EvmError.custom .SoldOut := by
  exact ⟨rfl, rfl, rfl, by decide, rfl, by decide⟩

/-- Witness for C3 (amended): the PacketDoesNotExist, PacketExpired,
SoldOut, AlreadyClaimed and InvalidPassword branches each fire at a
concrete state satisfying exactly their guards. -/
theorem C3_claim_check_order_witness :
    claimPacket exOracle envB st0 5 [3] [1]
      = .error (.custom .PacketDoesNotExist) ∧
    claimPacket exOracle envLate stP1 0 [3] [1]
      = .error (.custom .PacketExpired) ∧
    claimPacket exOracle envC stP2 0 [3] [1]
      = .error (.custom .SoldOut) ∧
    claimPacket exOracle envB stW2 0 [3] [1]
      = .error (.custom .AlreadyClaimed) ∧
    claimPacket exOracle envC stW2 0 [4] [1]
      = .error (.custom .InvalidPassword) := by
  refine ⟨(C3_claim_check_order_amended exOracle envB st0 5 [3] [1]).1
      (by decide),
    (C3_claim_check_order_amended exOracle envLate stP1 0 [3] [1]).2.1
      (by decide) (by decide),
    (C3_claim_check_order_amended exOracle envC stP2 0 [3] [1]).2.2.1
      (by decide) (by decide) (by decide),
    (C3_claim_check_order_amended exOracle envB stW2 0 [3] [1]).2.2.2.1
      (by decide) (by decide) (by decide) (by decide),
    (C3_claim_check_order_amended exOracle envC stW2 0 [4] [1]).2.2.2.2
      (by decide) (by decide) (by decide) (by decide)
      (Or.inr (by decide))⟩

/-- C4 (amended): at most one claim per identity per packet ever succeeds:
a successful claim requires the identity to be absent from the claimed set
and records it in the committed state; every later claim attempt by that
identity (either entry point) reverts with some error and commits nothing,
and the error is AlreadyClaimed precisely when the packet still exists, is
unexpired and has remaining shares — an expired or exhausted packet
reports the earlier-checked PacketExpired or SoldOut instead. -/
theorem C4_single_claim_per_identity_amended (O : HashOracles)
    (env : CallEnv) (st : ContractState) (pid : Nat) :
    (∀ pw pf st2 a, claimPacket O env st pid pw pf = .ok (st2, a) →
      (st.packets pid).claimed env.sender = false ∧
      (st2.packets pid).claimed env.sender = true) ∧
    (∀ ep pf st2 a b,
      claimPacketWithFHE O env st pid ep pf = .ok (st2, a, b) →
      (st.packets pid).claimed env.sender = false ∧
      (st2.packets pid).claimed env.sender = true) ∧
    ((st.packets pid).claimed env.sender = true →
      (∀ pw pf, ∃ e, claimPacket O env st pid pw pf = .error e) ∧
      (∀ ep : Nat, ∀ pf, ∃ e,
        claimPacketWithFHE O env st pid ep pf = .error e)) ∧
    ((st.packets pid).claimed env.sender = true →
      (st.packets pid).creator ≠ 0 →
      ¬ (st.packets pid).expiry < env.timestamp →
      (st.packets pid).remainingShares ≠ 0 →
      (∀ pw pf, claimPacket O env st pid pw pf
        = .error (.custom .AlreadyClaimed)) ∧
      (∀ ep : Nat, ∀ pf, claimPacketWithFHE O env st pid ep pf
        = .error (.custom .AlreadyClaimed))) := by
  refine ⟨fun pw pf st2 a h => ?_, fun ep pf st2 a b h => ?_,
    fun hclm => ⟨fun pw pf => ?_, fun ep pf => ?_⟩,
    fun hclm h1 h2 h3 => ⟨fun pw pf => ?_, fun ep pf => ?_⟩⟩
  · rcases claimPacket_ok h with ⟨-, -, -, hcl, -, -, -, -, -, -, -, hupd, -⟩
    refine ⟨hcl, ?_⟩
    rw [hupd]
    show (if env.sender = env.sender then true
      else (st.packets pid).claimed env.sender) = true
    simp
  · rcases claimPacketWithFHE_ok h with
      ⟨-, -, -, hcl, -, -, -, -, -, -, hupd, -⟩
    refine ⟨hcl, ?_⟩
    rw [hupd]
    show (if env.sender = env.sender then true
      else (st.packets pid).claimed env.sender) = true
    simp
  · by_cases h1 : (st.packets pid).creator = 0
    · exact ⟨.custom .PacketDoesNotExist, by simp [claimPacket, h1]⟩
    by_cases h2 : (st.packets pid).expiry < env.timestamp
    · exact ⟨.custom .PacketExpired, by simp [claimPacket, h1, h2]⟩
    by_cases h3 : (st.packets pid).remainingShares = 0
    · exact ⟨.custom .SoldOut, by simp [claimPacket, h1, h2, h3]⟩
    · exact ⟨.custom .AlreadyClaimed,
        by simp [claimPacket, h1, h2, h3, hclm]⟩
  · by_cases h1 : (st.packets pid).creator = 0
    · exact ⟨.custom .PacketDoesNotExist, by simp [claimPacketWithFHE, h1]⟩
    by_cases h2 : (st.packets pid).expiry < env.timestamp
    · exact ⟨.custom .PacketExpired, by simp [claimPacketWithFHE, h1, h2]⟩
    by_cases h3 : (st.packets pid).remainingShares = 0
    · exact ⟨.custom .SoldOut, by simp [claimPacketWithFHE, h1, h2, h3]⟩
    · exact ⟨.custom .AlreadyClaimed,
        by simp [claimPacketWithFHE, h1, h2, h3, hclm]⟩
  · simp [claimPacket, h1, h2, h3, hclm]
  · simp [claimPacketWithFHE, h1, h2, h3, hclm]

/-- Counterexample for C4 as stated: address 21 successfully claims the
single share of packet 0 and is recorded in the claimed set, yet its next
attempt fails with SoldOut — not AlreadyClaimed — because the share count
(now zero) is checked before the claimed set. -/
theorem C4_retry_soldout_counterexample :
    (claimPacket exOracle envB stP1 0 [3] [1]).isOk = true ∧
    (stP2.packets 0).claimed 21 = true ∧
    envB.sender = 21 ∧
    ¬ (stP2.packets 0).expiry < envB.timestamp ∧
    errorOf (claimPacket exOracle envB stP2 0 [3] [1])
      = some (.custom .SoldOut) ∧
    EvmError.custom .SoldOut ≠ EvmError.custom .AlreadyClaimed := by
  exact ⟨rfl, rfl, rfl, by decide, rfl, by decide⟩

/-- Witness for C4 (amended): on the 5-by-2 packet, the claim by address 21
finds it unclaimed and records it, and the retry by 21 — with shares still
remaining and the packet unexpired — fails with AlreadyClaimed on both
entry points. -/
theorem C4_single_claim_witness :
    ((stW1.packets 0).claimed 21 = false ∧
      (stW2.packets 0).claimed 21 = true) ∧
    claimPacket exOracle envB stW2 0 [3] [1]
      = .error (.custom .AlreadyClaimed) ∧
    claimPacketWithFHE exOracle envB stW2 0 42 [1]
      = .error (.custom .AlreadyClaimed) := by
  have h : claimPacket exOracle envB stW1 0 [3] [1] = .ok (stW2, 2) := rfl
  have hrec := (C4_single_claim_per_identity_amended exOracle envB stW1 0).1
    [3] [1] stW2 2 h
  have hretry := (C4_single_claim_per_identity_amended exOracle envB stW2
    0).2.2.2 (by decide) (by decide) (by decide) (by decide)
  exact ⟨hrec, hretry.1 [3] [1], hretry.2 42 [1]⟩

/-- C7 (amended): createPacket takes no duration argument; it uses the
fixed 24-hour duration (which satisfies the [1 hour, 30 days] range check
the code performs on that constant) and every created packet has
expiry = creation timestamp + 24 hours. -/
theorem C7_fixed_duration_amended (O : HashOracles) (env : CallEnv)
    (st : ContractState) (ptype T Q : Nat) (pw pf msg : List Nat)
    (st2 : ContractState) (pid : Nat)
    (hcreate : createPacket O env st ptype T Q pw pf msg = .ok (st2, pid)) :
    (st2.packets pid).expiry = env.timestamp + DEFAULT_DURATION ∧
    DEFAULT_DURATION = 24 * 60 * 60 ∧
    MIN_DURATION ≤ DEFAULT_DURATION ∧ DEFAULT_DURATION ≤ MAX_DURATION := by
  rcases createPacket_ok hcreate with
    ⟨-, -, -, -, -, -, -, -, -, -, -, -, -, -, hexp, -⟩
  exact ⟨hexp, rfl, by decide, by decide⟩

/-- Counterexample for C7 as stated: the create entry point admits no
duration choice — the packet created at time 100 gets expiry 100 + 86400
(24 hours), and in particular not 100 + 3600, even though the claim says a
caller-chosen duration of 1 hour (within [1 hour, 30 days]) must yield
expiry = now + 3600. -/
theorem C7_no_duration_argument_counterexample :
    (createPacket exOracle envA st0 1 5 1 [3] [1] []).isOk = true ∧
    envA.timestamp = 100 ∧
    (stP1.packets 0).expiry = 100 + 86400 ∧
    (stP1.packets 0).expiry ≠ 100 + 3600 := by
  exact ⟨rfl, rfl, rfl, by decide⟩

/-- Witness for C7 (amended): the packet created at time 100 has expiry
100 + DEFAULT_DURATION, and the fixed duration lies in the checked range. -/
theorem C7_fixed_duration_witness :
    (stP1.packets 0).expiry = envA.timestamp + DEFAULT_DURATION ∧
    DEFAULT_DURATION = 24 * 60 * 60 ∧
    MIN_DURATION ≤ DEFAULT_DURATION ∧ DEFAULT_DURATION ≤ MAX_DURATION := by
  have h : createPacket exOracle envA st0 1 5 1 [3] [1] [] = .ok (stP1, 0) :=
    rfl
  exact C7_fixed_duration_amended exOracle envA st0 1 5 1 [3] [1] [] stP1 0 h

/-- C8 (amended): the contract declares no InvalidParameters error; each
create precondition violation is rejected with its own distinct error, in
check order: quantity 0 reverts with the SoldOut custom error, then the
require reverts "shares too many", "amount zero", "password required",
"message too long", and — the duration check on the 24-hour constant never
failing — a deposit different from totalAmount (over- or underpayment)
reverts with "incorrect eth"; every failure is a revert committing
nothing. -/
theorem C8_create_error_mapping_amended (O : HashOracles) (env : CallEnv)
    (st : ContractState) (ptype T Q : Nat) (pw pf msg : List Nat) :
    (Q = 0 → createPacket O env st ptype T Q pw pf msg
      = .error (.custom .SoldOut)) ∧
    (Q ≠ 0 → 100 < Q → createPacket O env st ptype T Q pw pf msg
      = .error (.reason ("shares too many"))) ∧
    (Q ≠ 0 → ¬ 100 < Q → T = 0 → createPacket O env st ptype T Q pw pf msg
      = .error (.reason ("amount zero"))) ∧
    (Q ≠ 0 → ¬ 100 < Q → T ≠ 0 → pw.length = 0 →
      createPacket O env st ptype T Q pw pf msg
        = .error (.reason ("password required"))) ∧
    (Q ≠ 0 → ¬ 100 < Q → T ≠ 0 → pw.length ≠ 0 → 100 < msg.length →
      createPacket O env st ptype T Q pw pf msg
        = .error (.reason ("message too long"))) ∧
    (Q ≠ 0 → ¬ 100 < Q → T ≠ 0 → pw.length ≠ 0 → ¬ 100 < msg.length →
      st.nextPacketId + 1 ≤ UINT256_MAX → ptype ≤ 1 →
      env.timestamp + DEFAULT_DURATION ≤ UINT256_MAX →
      env.value ≠ T →
      createPacket O env st ptype T Q pw pf msg
        = .error (.reason ("incorrect eth"))) := by
  refine ⟨fun h1 => ?_, fun h1 h2 => ?_, fun h1 h2 h3 => ?_,
    fun h1 h2 h3 h4 => ?_, fun h1 h2 h3 h4 h5 => ?_,
    fun h1 h2 h3 h4 h5 hid hpt htm hv => ?_⟩
  · simp [createPacket, h1]
  · simp [createPacket, h1, h2]
  · simp [createPacket, h1, h2, h3]
  · simp [createPacket, h1, h2, h3, h4]
  · simp [createPacket, h1, h2, h3, h4, h5]
  · have hp2 : ptype = 0 ∨ ptype = 1 := by omega
    have htm2 : env.timestamp + 86400 ≤ UINT256_MAX := by
      simpa [DEFAULT_DURATION] using htm
    rcases hp2 with rfl | rfl <;>
      simp [createPacket, h1, h2, h3, h4, h5, checkedAdd, hid, htm2,
        PacketType.ofUint8, hv, MIN_DURATION, MAX_DURATION,
        DEFAULT_DURATION]

/-- Counterexample for C8 as stated: two different precondition violations
produce two different errors — quantity 0 reverts with the custom SoldOut
error while totalAmount 0 reverts with the message "amount zero" — so no
single error kind (and in particular no InvalidParameters, which the
contract never declares) covers every violated precondition. -/
theorem C8_no_single_error_kind_counterexample :
    errorOf (createPacket exOracle envA st0 1 5 0 [3] [1] [])
      = some (.custom .SoldOut) ∧
    errorOf (createPacket exOracle envA st0 1 0 1 [3] [1] [])
      = some (.reason ("amount zero")) ∧
    EvmError.custom .SoldOut ≠ EvmError.reason ("amount zero") := by
  exact ⟨rfl, rfl, by decide⟩

/-- Witness for C8 (amended): 101 shares revert with "shares too many", and
a deposit of 0 against totalAmount 5 (underpayment) reverts with
"incorrect eth". -/
theorem C8_create_error_mapping_witness :
    createPacket exOracle envA st0 1 5 101 [3] [1] []
      = .error (.reason ("shares too many")) ∧
    createPacket exOracle envB st0 1 5 3 [3] [1] []
      = .error (.reason ("incorrect eth")) := by
  refine ⟨(C8_create_error_mapping_amended exOracle envA st0 1 5 101
      [3] [1] []).2.1 (by decide) (by decide),
    (C8_create_error_mapping_amended exOracle envB st0 1 5 3
      [3] [1] []).2.2.2.2.2 (by decide) (by decide) (by decide)
      (by decide) (by decide) (by decide) (by decide) (by decide)
      (by decide)⟩

/-- On a packet with fewer remaining units than remaining shares the random
draw aborts with an arithmetic panic: a modulo by zero (code 18) when the
remainder is exactly one less than the share count (maxShare computes to
0), and a subtraction underflow (code 17) when it is smaller still. -/
lemma _randomAmount_underfunded (O : HashOracles) (env : CallEnv)
    (p : RedPacket) (n : Nat)
    (h2 : 2 ≤ p.remainingShares)
    (hlow : p.remainingAmount < p.remainingShares)
    (hcap : p.remainingShares ≤ 100) (hn : n + 1 ≤ UINT256_MAX) :
    _randomAmount O env p n = .error
      (.panic (if p.remainingAmount + 1 = p.remainingShares then 18
        else 17)) := by
  have hmax100 : (100 : Nat) ≤ UINT256_MAX := by norm_num [UINT256_MAX]
  have hne1 : ¬ p.remainingShares = 1 := by omega
  have hsub1 : checkedSub p.remainingShares 1
      = .ok (p.remainingShares - 1) := by
    unfold checkedSub; rw [if_pos (by omega)]
  have hmul : checkedMul (p.remainingShares - 1) 1
      = .ok (p.remainingShares - 1) := by
    unfold checkedMul
    rw [if_pos (by omega), Nat.mul_one]
  by_cases hc : p.remainingAmount + 1 = p.remainingShares
  · have hsub2 : checkedSub p.remainingAmount (p.remainingShares - 1)
        = .ok 0 := by
      unfold checkedSub
      rw [if_pos (by omega)]
      congr 1
      omega
    have hadd : checkedAdd n 1 = .ok (n + 1) := by
      unfold checkedAdd; rw [if_pos hn]
    simp [_randomAmount, hne1, hsub1, hmul, hsub2, hadd, checkedMod, hc]
  · have hsub2 : checkedSub p.remainingAmount (p.remainingShares - 1)
        = .error (.panic 17) := by
      unfold checkedSub; rw [if_neg (by omega)]
    simp [_randomAmount, hne1, hsub1, hmul, hsub2, hc]

/-- C10 (amended): for a RandomSplit packet created with
totalAmount < totalShares, a first claim that passes all five stated
preconditions aborts with an arithmetic panic rather than succeeding or
failing with a named error — a modulo-by-zero panic (code 18) when
totalAmount = totalShares - 1 (the subtraction yields maxShare = 0 without
underflowing), and a subtraction-underflow panic (code 17) when
totalAmount < totalShares - 1; the random-amount arithmetic is safe only
under the unstated precondition totalAmount ≥ totalShares. -/
theorem C10_underfunded_random_panic_amended (O : HashOracles)
    (env env2 : CallEnv) (st1 : ContractState) (T Q : Nat)
    (pw pf pf2 msg : List Nat) (st2 : ContractState) (pid : Nat)
    (hcreate : createPacket O env st1 0 T Q pw pf msg = .ok (st2, pid))
    (hTQ : T < Q)
    (hsender : env.sender ≠ 0)
    (hexp2 : ¬ (st2.packets pid).expiry < env2.timestamp)
    (hpf2 : ¬ pf2.length = 0)
    (hn : st2.randomNonce + 1 ≤ UINT256_MAX) :
    claimPacket O env2 st2 pid pw pf2
      = .error (.panic (if T + 1 = Q then 18 else 17)) := by
  rcases createPacket_ok hcreate with
    ⟨hQ0, hQ100, hT0, -, -, -, -, -, -, hcr, -, hRem, -, hRS, -, hFHE,
      hPH, -, hClm, hPT, -⟩
  have hT1 : 1 ≤ T := by omega
  have hrand := _randomAmount_underfunded O env2 (st2.packets pid)
    st2.randomNonce (by rw [hRS]; omega) (by rw [hRem, hRS]; exact hTQ)
    (by rw [hRS]; omega) hn
  simp only [claimPacket]
  rw [if_neg (by rw [hcr]; exact hsender)]
  rw [if_neg hexp2]
  rw [if_neg (by rw [hRS]; omega)]
  rw [if_neg (by simp [hClm])]
  rw [if_neg (by simp [hFHE])]
  rw [if_neg (by simp [hPH])]
  rw [if_neg hpf2]
  have hCA : claimAmount O env2 (st2.packets pid) st2.randomNonce
      = .error (.panic (if T + 1 = Q then 18 else 17)) := by
    unfold claimAmount
    rw [if_pos (hPT rfl), hrand, hRem, hRS]
  rw [hCA]

/-- Counterexample for C10 as stated: at the claim's own example
totalAmount = 1, totalShares = 2, the subtraction
remainingAmount - (remainingShares - 1) does not underflow — it succeeds
with 0 — and the abort is the modulo-by-zero Panic(0x12), not an
arithmetic-underflow Panic(0x11); so the subtraction is also safe at
totalAmount = totalShares - 1, below the claimed bound
totalAmount ≥ totalShares. -/
theorem C10_modzero_not_underflow_counterexample :
    (createPacket exOracle envA1 st0 0 1 2 [3] [1] []).isOk = true ∧
    (stV1.packets 0).remainingAmount = 1 ∧
    (stV1.packets 0).remainingShares = 2 ∧
    checkedSub (stV1.packets 0).remainingAmount
      ((stV1.packets 0).remainingShares - 1) = .ok 0 ∧
    errorOf (claimPacket exOracle envB stV1 0 [3] [1])
      = some (.panic 18) ∧
    EvmError.panic 18 ≠ EvmError.panic 17 := by
  exact ⟨rfl, rfl, rfl, rfl, rfl, by decide⟩

/-- Witness for C10 (amended): with totalAmount 1 and totalShares 3 the
precondition-passing claim aborts with the underflow panic (code 17). -/
theorem C10_underfunded_random_witness :
    (createPacket exOracle envA1 st0 0 1 3 [3] [1] []).isOk = true ∧
    claimPacket exOracle envB stU1 0 [3] [1] = .error (.panic 17) := by
  have h : createPacket exOracle envA1 st0 0 1 3 [3] [1] []
      = .ok (stU1, 0) := rfl
  have hmain := C10_underfunded_random_panic_amended exOracle envA1 envB
    st0 1 3 [3] [1] [1] [] stU1 0 h (by decide) (by decide) (by decide)
    (by decide) (by decide)
  exact ⟨rfl, by simpa using hmain⟩
